import Mathlib

/-!
Shallow embedding of `src/ol/xml.js` (openlayers XML read/write dispatch
engine) and proofs about it.

Modelling conventions:
* A DOM element node is `XNode`: namespace URI, local name, attributes and
  element children.  `parseNode` only ever iterates `firstElementChild` /
  `nextElementSibling`, so only element children are modelled.
* JavaScript values threaded through the engine become `Val`: the
  `undefined` sentinel, `null`, booleans, numbers, strings, arrays, plain
  objects (association lists of fields) and DOM nodes.
* The object stack is a `List Val` with the TOP AT THE HEAD: every access in
  the source is `objectStack[objectStack.length - 1]`, `push` or `pop`, so
  head-as-top is a faithful rendering.
* In-place mutation becomes explicit state passing: a Parser takes the stack
  and returns the updated stack; a Serializer additionally returns
  `Except Unit` because `serialize` can throw a TypeError (unguarded table
  lookup).  A thrown JS exception is `Except.error ()`.
* `opt_this` rebinding is dropped: readers/writers are already closures.
-/

/-- A DOM element: namespace URI, local name, attributes (name/value pairs)
and element children, in document order. -/
structure XNode where
  namespaceURI : String
  localName : String
  attributes : List (String × String)
  children : List XNode

/-- A JavaScript value as seen by the engine. -/
inductive Val where
  | undef : Val
  | null : Val
  | bool : Bool → Val
  | num : Int → Val
  | str : String → Val
  | arr : List Val → Val
  | obj : List (String × Val) → Val
  | node : XNode → Val

/-- The `value !== undefined` test used throughout the source. -/
def Val.isUndef : Val → Bool
  | .undef => true
  | _ => false

/-- JS property read `object[k]` as an `Option` (used for the `k in object`
test of `makeObjectPropertyPusher`). -/
def Val.getField : Val → String → Option Val
  | .obj fields, k => fields.lookup k
  | _, _ => none

/-- JS property read `object[k]`; a missing key or a non-object receiver
yields `undefined`. -/
def Val.getProp (v : Val) (k : String) : Val :=
  (v.getField k).getD Val.undef

/-- Replace the binding of `k` (or append it) in a field list. -/
def setField : List (String × Val) → String → Val → List (String × Val)
  | [], k, v => [(k, v)]
  | (k0, v0) :: rest, k, v =>
    if k0 = k then (k, v) :: rest else (k0, v0) :: setField rest k v

/-- JS property write `object[k] = v`; a non-object receiver is left
unchanged (JS would throw on `undefined`/`null`). -/
def Val.setProp : Val → String → Val → Val
  | .obj fields, k, v => .obj (setField fields k v)
  | x, _, _ => x

/-- JS `array.push(v)`; pushing onto a non-array is modelled as a no-op
(JS would throw). -/
def Val.pushElem : Val → Val → Val
  | .arr xs, v => .arr (xs ++ [v])
  | x, _ => x

/-- View a value as the array `serialize` walks: a non-array has an
`undefined` `length`, so the `for` loop body never runs — empty list. -/
def Val.asArr : Val → List Val
  | .arr xs => xs
  | _ => []

/-- DOM `parentNode.appendChild(c)`. -/
def XNode.appendChild (p : XNode) (c : XNode) : XNode :=
  { p with children := p.children ++ [c] }

/-- DOM `node.setAttribute(name, value)` (used by client node writers). -/
def XNode.setAttribute (n : XNode) (name value : String) : XNode :=
  { n with attributes := setField0 n.attributes name value }
where
  setField0 : List (String × String) → String → String → List (String × String)
  | [], k, v => [(k, v)]
  | (k0, v0) :: rest, k, v =>
    if k0 = k then (k, v) :: rest else (k0, v0) :: setField0 rest k v

/-- `createElementNS(namespaceURI, qualifiedName)`: a fresh empty element. -/
def createElementNS (namespaceURI : String) (qualifiedName : String) : XNode :=
  ⟨namespaceURI, qualifiedName, [], []⟩

/-- A Parser `function(Node, Array.<*>)`: mutates the stack, rendered as
stack in, stack out. -/
abbrev Parser := XNode → List Val → List Val

/-- A Serializer `function(Node, *, Array.<*>)`: may throw (rendered as
`Except.error ()`), otherwise returns the updated stack. -/
abbrev Serializer := XNode → Val → List Val → Except Unit (List Val)

/-- A node factory `function(*, Array.<*>, string=): (Node|undefined)`. -/
abbrev NodeFactory := Val → List Val → Option String → Option XNode

/-- Two-level namespace / local-name table keyed by strings, as the JS
object-of-objects `parsersNS` / `serializersNS`. -/
abbrev NSTable (α : Type) := List (String × List (String × α))

/-- The two JS lookups `table[ns]` then `inner[localName]`; `none` covers
both miss modes (namespace absent, or local name absent within it). -/
def lookup2 {α : Type} (tab : NSTable α) (ns ln : String) : Option α :=
  match tab.lookup ns with
  | none => none
  | some inner => inner.lookup ln

/-- Modelled from the spec: `extend` is imported from `ol/array.js`, which
is not part of the sources; the spec's array-extend row says "read a
sequence; append all its elements to the top-of-stack sequence". A
non-array argument is appended as a single element. -/
def extend (arr : List Val) (data : Val) : List Val :=
  match data with
  | .arr xs => arr ++ xs
  | v => arr ++ [v]

/-- `makeArrayExtender(valueReader)`: when the reader yields a defined
value, extend the array at the top of the object stack with it.  On an
empty stack JS would throw; modelled as the unchanged empty stack. -/
def makeArrayExtender (valueReader : XNode → List Val → Val) : Parser :=
  fun node objectStack =>
    let value := valueReader node objectStack
    if value.isUndef then objectStack
    else
      match objectStack with
      | [] => []
      | top :: rest =>
        match top with
        | .arr xs => .arr (extend xs value) :: rest
        | x => x :: rest

/-- `makeArrayPusher(valueReader)`: when the reader yields a defined value,
push it onto the array at the top of the object stack. -/
def makeArrayPusher (valueReader : XNode → List Val → Val) : Parser :=
  fun node objectStack =>
    let value := valueReader node objectStack
    if value.isUndef then objectStack
    else
      match objectStack with
      | [] => []
      | top :: rest => top.pushElem value :: rest

/-- `makeObjectPropertyPusher(valueReader, opt_property)`: when the reader
yields a defined value, append it to the array stored under
`opt_property` (defaulting to the node's local name) on the top-of-stack
object, creating the array when the key is absent. -/
def makeObjectPropertyPusher
    (valueReader : XNode → List Val → Val) (optProperty : Option String) :
    Parser :=
  fun node objectStack =>
    let value := valueReader node objectStack
    if value.isUndef then objectStack
    else
      match objectStack with
      | [] => []
      | top :: rest =>
        let property := optProperty.getD node.localName
        let array : Val :=
          match top.getField property with
          | some a => a
          | none => .arr []
        top.setProp property (array.pushElem value) :: rest

/-- Dispatch for one element child of `parseNode`: look the child up by
`(namespaceURI, localName)`; a miss at either level silently skips it. -/
def parseChild (parsersNS : NSTable Parser) (objectStack : List Val)
    (n : XNode) : List Val :=
  match lookup2 parsersNS n.namespaceURI n.localName with
  | none => objectStack
  | some parser => parser n objectStack

/-- `parseNode(parsersNS, node, objectStack)`: iterate the element children
of `node` in document order, dispatching each through the parser table. -/
def parseNode (parsersNS : NSTable Parser) (node : XNode)
    (objectStack : List Val) : List Val :=
  node.children.foldl (parseChild parsersNS) objectStack

/-- `pushParseAndPop(object, parsersNS, node, objectStack)`: push `object`,
parse, pop; returns the popped top together with the remaining stack
(the explicit-state rendering of the in-place `pop`). -/
def pushParseAndPop (object : Val) (parsersNS : NSTable Parser)
    (node : XNode) (objectStack : List Val) : Val × List Val :=
  let st := parseNode parsersNS node (object :: objectStack)
  (st.headD .undef, st.tail)

/-- One iteration of the `serialize` loop at index `i`: skip when
`values[i]` is `undefined`; otherwise call the node factory and, when it
returns a node, call `serializersNS[node.namespaceURI][node.localName]` —
an unguarded lookup, so a table miss is a thrown TypeError. -/
def keyAt (optKeys : Option (List String)) (i : Nat) : Option String :=
  match optKeys with
  | some ks => ks.get? i
  | none => none

def serializeStep (serializersNS : NSTable Serializer)
    (nodeFactory : NodeFactory) (values : List Val)
    (optKeys : Option (List String)) (objectStack : List Val) (i : Nat) :
    Except Unit (List Val) :=
  let value := values.getD i Val.undef
  if value.isUndef then .ok objectStack
  else
    match nodeFactory value objectStack (keyAt optKeys i) with
    | none => .ok objectStack
    | some nd =>
      match lookup2 serializersNS nd.namespaceURI nd.localName with
      | none => .error ()
      | some ser => ser nd value objectStack

/-- The `for` loop of `serialize` over a list of indices; a thrown error
aborts the remaining iterations. -/
def serializeLoop (serializersNS : NSTable Serializer)
    (nodeFactory : NodeFactory) (values : List Val)
    (optKeys : Option (List String)) :
    List Nat → List Val → Except Unit (List Val)
  | [], objectStack => .ok objectStack
  | i :: rest, objectStack =>
    match serializeStep serializersNS nodeFactory values optKeys objectStack i with
    | .ok st => serializeLoop serializersNS nodeFactory values optKeys rest st
    | .error e => .error e

/-- `serialize(serializersNS, nodeFactory, values, objectStack, opt_keys)`:
walk indices `0 .. length-1` where `length` is the key count when keys are
given, else the value count. -/
def serialize (serializersNS : NSTable Serializer)
    (nodeFactory : NodeFactory) (values : List Val) (objectStack : List Val)
    (optKeys : Option (List String)) : Except Unit (List Val) :=
  let length :=
    match optKeys with
    | some ks => ks.length
    | none => values.length
  serializeLoop serializersNS nodeFactory values optKeys
    (List.range length) objectStack

/-- `pushSerializeAndPop(object, ...)`: push `object`, serialize, pop;
returns the popped top and the remaining stack. -/
def pushSerializeAndPop (object : Val) (serializersNS : NSTable Serializer)
    (nodeFactory : NodeFactory) (values : List Val) (objectStack : List Val)
    (optKeys : Option (List String)) : Except Unit (Val × List Val) :=
  match serialize serializersNS nodeFactory values (object :: objectStack) optKeys with
  | .ok st => .ok (st.headD .undef, st.tail)
  | .error e => .error e

/-- `makeChildAppender(nodeWriter)`: run the writer on the node (the writer
populates it; explicit state: it returns the populated node), then append
the node under `objectStack[objectStack.length - 1].node`.  A missing
context frame or a frame without a node is a thrown TypeError. -/
def makeChildAppender (nodeWriter : XNode → Val → List Val → XNode) :
    Serializer :=
  fun node value objectStack =>
    let node1 := nodeWriter node value objectStack
    match objectStack with
    | [] => .error ()
    | parent :: rest =>
      match parent.getProp "node" with
      | .node parentNode =>
        .ok (parent.setProp "node" (.node (parentNode.appendChild node1)) :: rest)
      | _ => .error ()

/-- Namespace of the `.node` field of a context frame; JS throws when the
frame holds no node, modelled as the empty string. -/
def Val.nodeNS : Val → String
  | .node n => n.namespaceURI
  | _ => ""

/-- `makeSimpleNodeFactory(opt_nodeName, opt_namespaceURI)`: node name is
the fixed name when given, else the per-call hint (DOM stringifies an
`undefined` name to "undefined"); namespace is the fixed one when given,
else the namespace of the parent node in the top context frame. -/
def makeSimpleNodeFactory (optNodeName : Option String)
    (optNamespaceURI : Option String) : NodeFactory :=
  fun _value objectStack optNodeName1 =>
    let context := objectStack.headD Val.undef
    let contextNode := context.getProp "node"
    let nodeName : Option String :=
      match optNodeName with
      | some n => some n
      | none => optNodeName1
    let namespaceURI : String :=
      match optNamespaceURI with
      | some ns => ns
      | none => contextNode.nodeNS
    some (createElementNS namespaceURI (nodeName.getD "undefined"))

/-- `OBJECT_PROPERTY_NODE_FACTORY`: parent namespace, per-call name hint. -/
def OBJECT_PROPERTY_NODE_FACTORY : NodeFactory :=
  makeSimpleNodeFactory none none

/-- Explicit closure state of a `makeArraySerializer` adapter: the one-entry
serializer table and the node factory built on the first invocation. -/
structure ArraySerializerState where
  serializersNS : NSTable Serializer
  nodeFactory : NodeFactory

/-- `makeArraySerializer(nodeWriter)`: the returned closure, with its two
captured variables made explicit.  `none` is the fresh closure; on the
first call the state is built from the trigger node's local name and
namespace URI, and every call (re-)enters `serialize` over `value` with
the cached table and factory.  Returns the state after the call together
with the call's result. -/
def makeArraySerializerRun (nodeWriter : Serializer)
    (state : Option ArraySerializerState) (node : XNode) (value : Val)
    (objectStack : List Val) :
    ArraySerializerState × Except Unit (List Val) :=
  let st : ArraySerializerState :=
    match state with
    | some s => s
    | none =>
      { serializersNS := [(node.namespaceURI, [(node.localName, nodeWriter)])]
        nodeFactory := makeSimpleNodeFactory (some node.localName) none }
  (st, serialize st.serializersNS st.nodeFactory value.asArr objectStack none)

/-- `makeSequence(object, orderedKeys)`: positional array aligned to the
key order; `sequence[i] = object[orderedKeys[i]]`, so a missing key puts
`undefined` at its position. -/
def makeSequence (object : Val) (orderedKeys : List String) : List Val :=
  (List.range orderedKeys.length).map
    (fun i => object.getProp (orderedKeys.getD i ""))

/-- Context frame `{node: p}` as pushed by write-direction clients. -/
def mkFrame (p : XNode) : Val :=
  Val.obj [("node", Val.node p)]

/-- String rendering used by the demonstration node writers. -/
def valToStr : Val → String
  | .str s => s
  | .num n => toString n
  | .bool b => toString b
  | _ => ""

mutual

/-- Height of an element tree (children-nesting depth, at least 1). -/
def XNode.height : XNode → Nat
  | .mk _ _ _ cs => 1 + XNode.heightL cs

/-- Height of a forest of element trees. -/
def XNode.heightL : List XNode → Nat
  | [] => 0
  | c :: cs => max c.height (XNode.heightL cs)

end

/-- Shape of an element: its `(namespaceURI, localName)` pair and the shapes
of its children — the nesting structure with attributes and text erased. -/
inductive Shape where
  | mk : String → String → List Shape → Shape

mutual

/-- Shape of one element. -/
def XNode.shape : XNode → Shape
  | .mk ns ln _ cs => .mk ns ln (XNode.shapeL cs)

/-- Shapes of a forest. -/
def XNode.shapeL : List XNode → List Shape
  | [] => []
  | c :: cs => c.shape :: XNode.shapeL cs

end

mutual

/-- The `(namespaceURI, localName)` pairs of a shape, in preorder. -/
def Shape.pairs : Shape → List (String × String)
  | .mk ns ln cs => (ns, ln) :: Shape.pairsL cs

/-- The `(namespaceURI, localName)` pairs of a forest of shapes. -/
def Shape.pairsL : List Shape → List (String × String)
  | [] => []
  | s :: ss => s.pairs ++ Shape.pairsL ss

end

mutual

/-- Drop all attributes of an element tree, keeping names and nesting. -/
def XNode.scrub : XNode → XNode
  | .mk ns ln _ cs => .mk ns ln [] (XNode.scrubL cs)

/-- Drop all attributes in a forest. -/
def XNode.scrubL : List XNode → List XNode
  | [] => []
  | c :: cs => c.scrub :: XNode.scrubL cs

end

/-- A vocabulary: namespace URI with its recognized local names.
`recognized` is membership via the same first-match lookup the tables use. -/
def recognized (voc : List (String × List String)) (ns ln : String) : Bool :=
  match voc.lookup ns with
  | none => false
  | some lns => lns.contains ln

mutual

/-- Every element of the tree carries a recognized pair. -/
def XNode.allRec (voc : List (String × List String)) : XNode → Bool
  | .mk ns ln _ cs => recognized voc ns ln && XNode.allRecL voc cs

/-- Every element of the forest carries a recognized pair. -/
def XNode.allRecL (voc : List (String × List String)) : List XNode → Bool
  | [] => true
  | c :: cs => XNode.allRec voc c && XNode.allRecL voc cs

end

/-- The two-level table registering one handler under every vocabulary
pair (the shape every schema module builds for the engine). -/
def tableOf {α : Type} (voc : List (String × List String)) (h : α) :
    NSTable α :=
  voc.map (fun p => (p.1, p.2.map (fun ln => (ln, h))))

/-- Fueled generic reading client: `rtRead (fuel+1)` parses one element by
`pushParseAndPop` with a fresh array seed and a table whose parsers are
`makeArrayPusher` over `rtRead fuel`, recording the element's namespace,
local name and parsed children. -/
def rtRead (voc : List (String × List String)) : Nat → XNode → Val
  | 0, _ => Val.undef
  | fuel + 1, node =>
    .obj [("nsuri", .str node.namespaceURI),
          ("local", .str node.localName),
          ("kids",
            (pushParseAndPop (.arr [])
              (tableOf voc (makeArrayPusher (fun c _ => rtRead voc fuel c)))
              node []).1)]

/-- The parser table used by `rtRead (fuel+1)`. -/
def rtParserTable (voc : List (String × List String)) (fuel : Nat) :
    NSTable Parser :=
  tableOf voc (makeArrayPusher (fun c _ => rtRead voc fuel c))

/-- Node factory of the generic writing client: build the output element
from the namespace and local name recorded in the value. -/
def rtNodeFactory : NodeFactory :=
  fun value _ _ =>
    match value.getProp "nsuri", value.getProp "local" with
    | .str ns, .str ln => some (createElementNS ns ln)
    | _, _ => none

/-- Fueled generic writing client: `rtSerializer (fuel+1)` is a child
appender whose writer populates the fresh node by `pushSerializeAndPop`
over the recorded children with the fuel-smaller table. -/
def rtSerializer (voc : List (String × List String)) : Nat → Serializer
  | 0 => fun _ _ objectStack => .ok objectStack
  | fuel + 1 =>
    makeChildAppender (fun node value _ =>
      match pushSerializeAndPop (mkFrame node)
          (tableOf voc (rtSerializer voc fuel)) rtNodeFactory
          (value.getProp "kids").asArr [] none with
      | .ok (popped, _) =>
        match popped.getProp "node" with
        | .node node1 => node1
        | _ => node
      | .error _ => node)

/-- The serializer table used by the generic writing client at `fuel`. -/
def rtSerTable (voc : List (String × List String)) (fuel : Nat) :
    NSTable Serializer :=
  tableOf voc (rtSerializer voc fuel)

mutual

/-- Value an element parses to under the generic reading client. -/
def encodeNode : XNode → Val
  | .mk ns ln _ cs =>
    .obj [("nsuri", .str ns), ("local", .str ln),
          ("kids", .arr (encodeKids cs))]

/-- Values a forest parses to under the generic reading client. -/
def encodeKids : List XNode → List Val
  | [] => []
  | c :: cs => encodeNode c :: encodeKids cs

end

/-- Looking a local name up in a table fragment that registers the same
handler under every listed name. -/
theorem lookup_map_const {α : Type} (h : α) (lns : List String) (ln : String) :
    (lns.map (fun l => (l, h))).lookup ln
      = if lns.contains ln then some h else none := by
  induction lns with
  | nil => simp
  | cons l rest ih =>
    by_cases hl : ln = l
    · subst hl; simp [List.lookup]
    · have hb : (ln == l) = false := beq_eq_false_iff_ne.mpr hl
      simp [List.lookup, hb, ih, hl]

/-- The two-level lookup over `tableOf` hits exactly the recognized pairs. -/
theorem lookup2_tableOf {α : Type} (voc : List (String × List String)) (h : α)
    (ns ln : String) :
    lookup2 (tableOf voc h) ns ln
      = if recognized voc ns ln then some h else none := by
  induction voc with
  | nil => simp [lookup2, tableOf, recognized]
  | cons p rest ih =>
    obtain ⟨ns0, lns⟩ := p
    by_cases hns : ns = ns0
    · subst hns
      simp [lookup2, tableOf, recognized, List.lookup, lookup_map_const]
    · have hb : (ns == ns0) = false := beq_eq_false_iff_ne.mpr hns
      simpa [lookup2, tableOf, recognized, List.lookup, hb] using ih

/-- The serialize loop over an empty value list leaves the stack alone. -/
theorem serialize_nil (tab : NSTable Serializer) (nf : NodeFactory)
    (st : List Val) : serialize tab nf [] st none = .ok st := rfl

/-- Index shift: walking `v :: vs` at successor indices is walking `vs`. -/
theorem serializeLoop_shift (tab : NSTable Serializer) (nf : NodeFactory)
    (v : Val) (vs : List Val) :
    ∀ (is0 : List Nat) (st : List Val),
      serializeLoop tab nf (v :: vs) none (is0.map (· + 1)) st
        = serializeLoop tab nf vs none is0 st := by
  intro is0
  induction is0 with
  | nil => intro st; rfl
  | cons i rest ih =>
    intro st
    simp only [List.map_cons, serializeLoop]
    have hstep : serializeStep tab nf (v :: vs) none st (i + 1)
        = serializeStep tab nf vs none st i := by
      simp [serializeStep, keyAt, List.getD_cons_succ]
    rw [hstep]
    cases serializeStep tab nf vs none st i with
    | ok st1 => exact ih st1
    | error e => rfl

/-- One unfolding of `serialize` at the head value (no keys). -/
theorem serialize_cons (tab : NSTable Serializer) (nf : NodeFactory)
    (v : Val) (vs : List Val) (st : List Val) :
    serialize tab nf (v :: vs) st none
      = match serializeStep tab nf (v :: vs) none st 0 with
        | .ok st1 => serialize tab nf vs st1 none
        | .error e => .error e := by
  show serializeLoop tab nf (v :: vs) none
      (List.range ((v :: vs).length)) st = _
  rw [List.length_cons, List.range_succ_eq_map]
  simp only [serializeLoop]
  cases serializeStep tab nf (v :: vs) none st 0 with
  | ok st1 => exact serializeLoop_shift tab nf v vs (List.range vs.length) st1
  | error e => rfl

/-- A successful `serialize` iteration preserves the stack depth when every
registered serializer does. -/
theorem serializeStep_length (tab : NSTable Serializer) (nf : NodeFactory)
    (values : List Val) (optKeys : Option (List String))
    (hs : ∀ ns ln ser, lookup2 tab ns ln = some ser →
      ∀ nd v s s', ser nd v s = .ok s' → s'.length = s.length)
    (st st' : List Val) (i : Nat)
    (h : serializeStep tab nf values optKeys st i = .ok st') :
    st'.length = st.length := by
  simp only [serializeStep] at h
  by_cases hv : (values.getD i Val.undef).isUndef = true
  · rw [if_pos hv] at h
    cases h; rfl
  · rw [if_neg hv] at h
    generalize keyAt optKeys i = key at h
    cases hnf : nf (values.getD i Val.undef) st key with
    | none => rw [hnf] at h; cases h; rfl
    | some nd =>
      rw [hnf] at h
      dsimp only at h
      cases hl : lookup2 tab nd.namespaceURI nd.localName with
      | none => rw [hl] at h; dsimp only at h; cases h
      | some ser =>
        rw [hl] at h
        dsimp only at h
        exact hs _ _ _ hl _ _ _ _ h

/-- A successful `serialize` loop preserves the stack depth when every
registered serializer does. -/
theorem serializeLoop_length (tab : NSTable Serializer) (nf : NodeFactory)
    (values : List Val) (optKeys : Option (List String))
    (hs : ∀ ns ln ser, lookup2 tab ns ln = some ser →
      ∀ nd v s s', ser nd v s = .ok s' → s'.length = s.length) :
    ∀ (is0 : List Nat) (st st' : List Val),
      serializeLoop tab nf values optKeys is0 st = .ok st' →
      st'.length = st.length := by
  intro is0
  induction is0 with
  | nil => intro st st' h; cases h; rfl
  | cons i rest ih =>
    intro st st' h
    simp only [serializeLoop] at h
    split at h
    · rename_i st1 hstep
      have h1 := serializeStep_length tab nf values optKeys hs st st1 i hstep
      have h2 := ih st1 st' h
      omega
    · cases h

/-- `parseNode`s fold preserves the stack depth when every registered
parser does. -/
theorem parseNode_length (tab : NSTable Parser)
    (hp : ∀ ns ln p, lookup2 tab ns ln = some p →
      ∀ n s, (p n s).length = s.length) :
    ∀ (cs : List XNode) (st : List Val),
      (cs.foldl (parseChild tab) st).length = st.length := by
  intro cs
  induction cs with
  | nil => intro st; rfl
  | cons c rest ih =>
    intro st
    simp only [List.foldl_cons]
    rw [ih]
    unfold parseChild
    cases hl : lookup2 tab c.namespaceURI c.localName with
    | none => rfl
    | some p => exact hp _ _ _ hl _ _

/-- Every element tree has height at least one. -/
theorem XNode.height_pos (n : XNode) : 1 ≤ n.height := by
  cases n; simp [XNode.height]

mutual

/-- Dropping attributes does not change an element's shape. -/
theorem shape_scrub : ∀ (n : XNode), n.scrub.shape = n.shape
  | .mk ns ln a cs => by
    simp [XNode.scrub, XNode.shape, shape_scrubL cs]

/-- Dropping attributes does not change a forest's shapes. -/
theorem shape_scrubL : ∀ (cs : List XNode),
    XNode.shapeL (XNode.scrubL cs) = XNode.shapeL cs
  | [] => rfl
  | c :: cs => by
    simp [XNode.scrubL, XNode.shapeL, shape_scrub c, shape_scrubL cs]

end

/-- C1: `pushParseAndPop` and `pushSerializeAndPop` push exactly one frame,
run dispatch, pop exactly one frame and return the popped top, so — when
every handler reachable through the tables preserves stack depth — the
stack depth after the call equals the depth before it (in the write
direction, on every successful run). -/
theorem pushPop_balance (object : Val) (ptab : NSTable Parser)
    (stab : NSTable Serializer) (nf : NodeFactory) (node : XNode)
    (values : List Val) (optKeys : Option (List String))
    (objectStack : List Val)
    (hp : ∀ ns ln p, lookup2 ptab ns ln = some p →
      ∀ n s, (p n s).length = s.length)
    (hs : ∀ ns ln ser, lookup2 stab ns ln = some ser →
      ∀ nd v s s', ser nd v s = .ok s' → s'.length = s.length) :
    (pushParseAndPop object ptab node objectStack).2.length
      = objectStack.length
    ∧ ∀ r st', pushSerializeAndPop object stab nf values objectStack optKeys
        = .ok (r, st') → st'.length = objectStack.length := by
  constructor
  · have h1 : (parseNode ptab node (object :: objectStack)).length
        = (object :: objectStack).length := parseNode_length ptab hp _ _
    simp only [pushParseAndPop]
    rw [List.length_tail, h1]
    simp
  · intro r st' h
    simp only [pushSerializeAndPop] at h
    cases hser : serialize stab nf values (object :: objectStack) optKeys with
    | ok st1 =>
      rw [hser] at h
      dsimp only at h
      have h1 : st1.length = (object :: objectStack).length :=
        serializeLoop_length stab nf values optKeys hs _ _ _ hser
      injection h with h2
      injection h2 with hr hst
      subst hst
      rw [List.length_tail, h1]
      simp
    | error e => rw [hser] at h; cases h

/-- Witness for C1 at a concrete configuration: empty tables, so the
depth-preservation hypotheses hold vacuously. -/
theorem pushPop_balance_witness :
    (pushParseAndPop (Val.num 0) [] ⟨"u", "r", [], []⟩ [Val.num 5]).2.length
        = [Val.num 5].length
    ∧ ∀ r st', pushSerializeAndPop (Val.num 0) [] (fun _ _ _ => none)
        [Val.num 1] [Val.num 5] none = .ok (r, st') →
        st'.length = [Val.num 5].length :=
  pushPop_balance (Val.num 0) [] [] (fun _ _ _ => none) ⟨"u", "r", [], []⟩
    [Val.num 1] none [Val.num 5]
    (fun ns ln p h => by simp [lookup2] at h)
    (fun ns ln ser h => by simp [lookup2] at h)

/-- C2: an element child whose `(namespaceURI, localName)` has no parser
table entry — namespace absent, or local name absent within it — is
silently skipped by `parseNode`: no parser runs for it, nothing is thrown,
and the object stack is exactly what it is without that child. -/
theorem parseNode_skips_unmapped_child (tab : NSTable Parser)
    (ns ln : String) (attrs : List (String × String)) (pre post : List XNode)
    (c : XNode) (objectStack : List Val)
    (h : lookup2 tab c.namespaceURI c.localName = none) :
    parseNode tab ⟨ns, ln, attrs, pre ++ c :: post⟩ objectStack
      = parseNode tab ⟨ns, ln, attrs, pre ++ post⟩ objectStack := by
  simp only [parseNode, List.foldl_append, List.foldl_cons]
  congr 1
  unfold parseChild
  rw [h]

/-- Witness for C2: a table knowing only `(urn:t, known)` skips the
`unknown` child, leaving the parse of the childless root. -/
theorem parseNode_skips_unmapped_child_witness :
    parseNode [("urn:t", [("known", makeArrayPusher (fun _ _ => Val.num 1))])]
        ⟨"urn:t", "root", [], [⟨"urn:t", "unknown", [], []⟩]⟩ [Val.arr []]
      = parseNode [("urn:t", [("known", makeArrayPusher (fun _ _ => Val.num 1))])]
        ⟨"urn:t", "root", [], []⟩ [Val.arr []] :=
  parseNode_skips_unmapped_child
    [("urn:t", [("known", makeArrayPusher (fun _ _ => Val.num 1))])]
    "urn:t" "root" [] [] [] ⟨"urn:t", "unknown", [], []⟩ [Val.arr []] rfl

/-- C3 counterexample: with an empty serializer table and a node factory
that returns a node, `serialize` throws (its table lookup is unguarded)
instead of performing no operation, so the write direction is not a silent
no-op on an unmapped pair. -/
theorem serialize_unmapped_raises_cex :
    serialize [] (fun _ _ _ => some (createElementNS "urn:x" "a"))
      [Val.num 1] [] none = .error () := rfl

/-- C3 amended: the read direction silently skips an unmapped pair, but in
the write direction, when the node factory returns a node whose
`(namespaceURI, localName)` has no serializer-table entry (namespace absent
or local name absent within it), `serialize` throws a TypeError at that
value rather than skipping it. -/
theorem serialize_unmapped_raises (tab : NSTable Serializer)
    (nf : NodeFactory) (v : Val) (vs : List Val) (objectStack : List Val)
    (nd : XNode)
    (hv : v.isUndef = false)
    (hnf : nf v objectStack none = some nd)
    (hmiss : lookup2 tab nd.namespaceURI nd.localName = none) :
    serialize tab nf (v :: vs) objectStack none = .error () := by
  rw [serialize_cons]
  have hstep : serializeStep tab nf (v :: vs) none objectStack 0
      = .error () := by
    simp [serializeStep, keyAt, hv, hnf, hmiss]
  rw [hstep]

/-- Witness for C3's amended claim: the namespace is registered but the
local name is not, and `serialize` throws. -/
theorem serialize_unmapped_raises_witness :
    serialize [("urn:y", [("other", fun _ _ s => Except.ok s)])]
      (fun _ _ _ => some (createElementNS "urn:y" "b"))
      [Val.num 2] [] none = .error () :=
  serialize_unmapped_raises
    [("urn:y", [("other", fun _ _ s => Except.ok s)])]
    (fun _ _ _ => some (createElementNS "urn:y" "b"))
    (Val.num 2) [] [] (createElementNS "urn:y" "b") rfl rfl rfl

/-- C5: an array-extend parser appends all elements of a defined read
sequence, in order, to the top-of-stack array (concatenation, not
replacement); successive reads `[1,2]` then `[3]` accumulate to `[1,2,3]`;
an undefined read leaves the stack untouched. -/
theorem makeArrayExtender_spec
    (reader : XNode → List Val → Val) (node : XNode) (rest : List Val) :
    (∀ xs ys, reader node (Val.arr ys :: rest) = Val.arr xs →
      makeArrayExtender reader node (Val.arr ys :: rest)
        = Val.arr (ys ++ xs) :: rest)
    ∧ (∀ st, reader node st = Val.undef →
        makeArrayExtender reader node st = st)
    ∧ makeArrayExtender (fun _ _ => Val.arr [Val.num 3]) node
        (makeArrayExtender (fun _ _ => Val.arr [Val.num 1, Val.num 2]) node
          [Val.arr []])
      = [Val.arr [Val.num 1, Val.num 2, Val.num 3]] := by
  refine ⟨?_, ?_, rfl⟩
  · intro xs ys h
    simp [makeArrayExtender, h, extend, Val.isUndef]
  · intro st h
    simp [makeArrayExtender, h, Val.isUndef]

/-- Witness for C5: extending `[5]` by a read `[7]` concatenates, and an
undefined read is the identity. -/
theorem makeArrayExtender_spec_witness :
    makeArrayExtender (fun _ _ => Val.arr [Val.num 7]) (createElementNS "" "e")
        [Val.arr [Val.num 5]]
      = [Val.arr [Val.num 5, Val.num 7]]
    ∧ makeArrayExtender (fun _ _ => Val.undef) (createElementNS "" "e")
        [Val.arr []]
      = [Val.arr []] :=
  ⟨(makeArrayExtender_spec (fun _ _ => Val.arr [Val.num 7])
      (createElementNS "" "e") []).1 [Val.num 7] [Val.num 5] rfl,
   (makeArrayExtender_spec (fun _ _ => Val.undef)
      (createElementNS "" "e") []).2.1 [Val.arr []] rfl⟩

/-- Demonstration value reader: the value of the "v" attribute when
present, else undefined. -/
def attrReader : XNode → List Val → Val :=
  fun c _ =>
    match c.attributes.lookup "v" with
    | some s => Val.str s
    | none => Val.undef -- attribute absent

/-- An `item` element carrying a "v" attribute. -/
def itemEl (s : String) : XNode :=
  ⟨"urn:t", "item", [("v", s)], []⟩

/-- C6: a property-push parser appends each defined read value to the
array stored under `opt_property` (default: the child's local name) on the
top-of-stack record, creating the array when the key is absent; three
same-named children produce a 3-element array in document order, and two
differently named children populate two independent properties. -/
theorem makeObjectPropertyPusher_spec
    (reader : XNode → List Val → Val) (optProperty : Option String)
    (node : XNode) (top : Val) (rest : List Val) :
    (∀ v xs, reader node (top :: rest) = v → v.isUndef = false →
      top.getField (optProperty.getD node.localName) = some (Val.arr xs) →
      makeObjectPropertyPusher reader optProperty node (top :: rest)
        = top.setProp (optProperty.getD node.localName)
            (Val.arr (xs ++ [v])) :: rest)
    ∧ (∀ v, reader node (top :: rest) = v → v.isUndef = false →
      top.getField (optProperty.getD node.localName) = none →
      makeObjectPropertyPusher reader optProperty node (top :: rest)
        = top.setProp (optProperty.getD node.localName)
            (Val.arr [v]) :: rest)
    ∧ (∀ st, reader node st = Val.undef →
      makeObjectPropertyPusher reader optProperty node st = st)
    ∧ parseNode [("urn:t", [("item", makeObjectPropertyPusher attrReader none)])]
        ⟨"urn:t", "root", [], [itemEl "1", itemEl "2", itemEl "3"]⟩
        [Val.obj []]
      = [Val.obj [("item", Val.arr [Val.str "1", Val.str "2", Val.str "3"])]]
    ∧ parseNode [("urn:t", [("a", makeObjectPropertyPusher attrReader none),
                            ("b", makeObjectPropertyPusher attrReader none)])]
        ⟨"urn:t", "root", [],
          [⟨"urn:t", "a", [("v", "x")], []⟩, ⟨"urn:t", "b", [("v", "y")], []⟩]⟩
        [Val.obj []]
      = [Val.obj [("a", Val.arr [Val.str "x"]),
                  ("b", Val.arr [Val.str "y"])]] := by
  refine ⟨?_, ?_, ?_, rfl, rfl⟩
  · intro v xs hr hv hf
    simp [makeObjectPropertyPusher, hr, hv, hf, Val.pushElem]
  · intro v hr hv hf
    simp [makeObjectPropertyPusher, hr, hv, hf, Val.pushElem]
  · intro st hr
    simp [makeObjectPropertyPusher, hr, Val.isUndef]

/-- Witness for C6: appending to an existing "item" array, creating a fresh
one, and the undefined-read identity. -/
theorem makeObjectPropertyPusher_spec_witness :
    makeObjectPropertyPusher attrReader none (itemEl "2")
        [Val.obj [("item", Val.arr [Val.str "1"])]]
      = [Val.obj [("item", Val.arr [Val.str "1", Val.str "2"])]]
    ∧ makeObjectPropertyPusher attrReader none (itemEl "1") [Val.obj []]
      = [Val.obj [("item", Val.arr [Val.str "1"])]]
    ∧ makeObjectPropertyPusher attrReader none ⟨"urn:t", "item", [], []⟩
        [Val.obj []]
      = [Val.obj []] :=
  ⟨(makeObjectPropertyPusher_spec attrReader none (itemEl "2")
      (Val.obj [("item", Val.arr [Val.str "1"])]) []).1
      (Val.str "2") [Val.str "1"] rfl rfl rfl,
   (makeObjectPropertyPusher_spec attrReader none (itemEl "1")
      (Val.obj []) []).2.1 (Val.str "1") rfl rfl rfl,
   (makeObjectPropertyPusher_spec attrReader none ⟨"urn:t", "item", [], []⟩
      (Val.obj []) []).2.2.1 [Val.obj []] rfl⟩

/-- Demonstration node writer: record the serialized value in a "v"
attribute on the node. -/
def attrWriter : XNode → Val → List Val → XNode :=
  fun nd v _ => nd.setAttribute "v" (valToStr v)

/-- Serializer table for the ordered-sequence demonstration. -/
def seqTab : NSTable Serializer :=
  [("urn:s", [("a", makeChildAppender attrWriter),
              ("b", makeChildAppender attrWriter),
              ("c", makeChildAppender attrWriter)])]

/-- C7: `makeSequence` aligns a record to an ordered key list — the result
has one position per key, holding the record's value there, `undefined`
where the key is missing — and serializing such a sparse sequence with the
same keys emits elements only at the defined positions: `{a:1, b:2}` over
`[a,b,c]` gives `[1,2,undefined]` and serializes to children `a` and `b`
only, with no element for `c`. -/
theorem makeSequence_serialize_spec (object : Val)
    (orderedKeys : List String) :
    makeSequence object orderedKeys
      = orderedKeys.map (fun k => object.getProp k)
    ∧ makeSequence (Val.obj [("a", Val.num 1), ("b", Val.num 2)])
        ["a", "b", "c"] = [Val.num 1, Val.num 2, Val.undef]
    ∧ serialize seqTab OBJECT_PROPERTY_NODE_FACTORY
        (makeSequence (Val.obj [("a", Val.num 1), ("b", Val.num 2)])
          ["a", "b", "c"])
        [mkFrame (createElementNS "urn:s" "root")] (some ["a", "b", "c"])
      = .ok [mkFrame ⟨"urn:s", "root", [],
          [⟨"urn:s", "a", [("v", "1")], []⟩,
           ⟨"urn:s", "b", [("v", "2")], []⟩]⟩] := by
  refine ⟨?_, rfl, rfl⟩
  apply List.ext_getElem
  · simp [makeSequence]
  · intro i h1 h2
    simp only [makeSequence, List.getElem_map, List.getElem_range]
    rw [List.getD_eq_getElem?_getD]
    rw [List.getElem?_eq_getElem (by simpa [makeSequence] using h2)]
    rfl

/-- C9 demonstration table: a single marker serializer that appends the
factory-made node unchanged. -/
def markTab : NSTable Serializer :=
  [("urn:m", [("m", makeChildAppender (fun nd _ _ => nd))])]

/-- C9 demonstration node factory: always produce the marker element. -/
def markNf : NodeFactory :=
  fun _ _ _ => some (createElementNS "urn:m" "m")

/-- C9: the skip-on-absent test of `serialize` is strict inequality with
`undefined`: only a literal `undefined` satisfies it, and every other
value — `null`, `0`, `false`, `""` included — is passed to the node
factory and on to the serializer, here appending a marker child. -/
theorem serialize_skip_only_undefined :
    (∀ v : Val, v.isUndef = true → v = Val.undef)
    ∧ (∀ (v : Val) (p : XNode), v.isUndef = false →
      serialize markTab markNf [v] [mkFrame p] none
        = .ok [mkFrame (p.appendChild (createElementNS "urn:m" "m"))])
    ∧ serialize markTab markNf [Val.undef]
        [mkFrame (createElementNS "urn:m" "root")] none
      = .ok [mkFrame (createElementNS "urn:m" "root")]
    ∧ serialize markTab markNf [Val.null]
        [mkFrame (createElementNS "urn:m" "root")] none
      = .ok [mkFrame ((createElementNS "urn:m" "root").appendChild
          (createElementNS "urn:m" "m"))]
    ∧ serialize markTab markNf [Val.num 0]
        [mkFrame (createElementNS "urn:m" "root")] none
      = .ok [mkFrame ((createElementNS "urn:m" "root").appendChild
          (createElementNS "urn:m" "m"))]
    ∧ serialize markTab markNf [Val.bool false]
        [mkFrame (createElementNS "urn:m" "root")] none
      = .ok [mkFrame ((createElementNS "urn:m" "root").appendChild
          (createElementNS "urn:m" "m"))]
    ∧ serialize markTab markNf [Val.str ""]
        [mkFrame (createElementNS "urn:m" "root")] none
      = .ok [mkFrame ((createElementNS "urn:m" "root").appendChild
          (createElementNS "urn:m" "m"))] := by
  refine ⟨?_, ?_, rfl, rfl, rfl, rfl, rfl⟩
  · intro v h
    cases v <;> simp [Val.isUndef] at h ⊢
  · intro v p hv
    rw [serialize_cons]
    have hstep : serializeStep markTab markNf [v] none [mkFrame p] 0
        = .ok [mkFrame (p.appendChild (createElementNS "urn:m" "m"))] := by
      simp [serializeStep, keyAt, hv, markTab, markNf, lookup2, List.lookup,
        makeChildAppender, mkFrame, Val.getProp, Val.getField, Val.setProp,
        setField, createElementNS]
    rw [hstep]
    exact serialize_nil _ _ _

/-- Witness for C9: the number `7` is not skipped and appends the marker. -/
theorem serialize_skip_only_undefined_witness :
    serialize markTab markNf [Val.num 7]
        [mkFrame (createElementNS "urn:m" "root")] none
      = .ok [mkFrame ((createElementNS "urn:m" "root").appendChild
          (createElementNS "urn:m" "m"))] :=
  serialize_skip_only_undefined.2.1 (Val.num 7)
    (createElementNS "urn:m" "root") rfl

/-- Serializing a list of defined values through the one-entry table and
fixed-name factory that `makeArraySerializer` builds: every value appends
one child, populated by `g`, to the context frame's parent node. -/
theorem arraySerializer_loop (g : XNode → Val → XNode)
    (trigNs trigLn : String) :
    ∀ (values : List Val) (p : XNode),
      p.namespaceURI = trigNs →
      (∀ v ∈ values, v.isUndef = false) →
      serialize [(trigNs, [(trigLn, makeChildAppender (fun nd v _ => g nd v))])]
        (makeSimpleNodeFactory (some trigLn) none) values [mkFrame p] none
      = .ok [mkFrame { p with children := (p.children
          ++ values.map (fun v => g (createElementNS trigNs trigLn) v)) }] := by
  intro values
  induction values with
  | nil =>
    intro p hp hds
    obtain ⟨ns0, ln0, a0, cs0⟩ := p
    rw [serialize_nil]
    simp
  | cons v vs ih =>
    intro p hp hds
    have hv : v.isUndef = false := hds v (List.mem_cons_self v vs)
    rw [serialize_cons]
    have hstep : serializeStep
        [(trigNs, [(trigLn, makeChildAppender (fun nd v _ => g nd v))])]
        (makeSimpleNodeFactory (some trigLn) none) (v :: vs) none
        [mkFrame p] 0
        = .ok [mkFrame (p.appendChild (g (createElementNS trigNs trigLn) v))] := by
      simp [serializeStep, keyAt, hv, makeSimpleNodeFactory, mkFrame,
        Val.getProp, Val.getField, Val.nodeNS, hp, lookup2, List.lookup,
        createElementNS, makeChildAppender, Val.setProp, setField]
    rw [hstep]
    dsimp only
    rw [ih (p.appendChild (g (createElementNS trigNs trigLn) v))
      (by simp [XNode.appendChild, hp])
      (fun w hw => hds w (List.mem_cons_of_mem _ hw))]
    simp [XNode.appendChild]

/-- C8: invoked fresh with a trigger node and an array of defined values,
`makeArraySerializer` builds a one-entry serializer table keyed by the
trigger's `(namespaceURI, localName)` and a same-name node factory (whose
namespace comes from the parent context, here equal to the trigger's),
re-enters `serialize` over the array, and the wrapped writer runs once per
value: exactly `m` sibling children are appended, all bearing the trigger's
`(namespaceURI, localName)`, each populated from its own value. -/
theorem makeArraySerializer_siblings (g : XNode → Val → XNode)
    (trigger p : XNode) (values : List Val)
    (hns : p.namespaceURI = trigger.namespaceURI)
    (hds : ∀ v ∈ values, v.isUndef = false)
    (hname : ∀ nd v, (g nd v).namespaceURI = nd.namespaceURI
      ∧ (g nd v).localName = nd.localName) :
    (makeArraySerializerRun (makeChildAppender (fun nd v _ => g nd v)) none
        trigger (Val.arr values) [mkFrame p]).1
      = ⟨[(trigger.namespaceURI,
            [(trigger.localName, makeChildAppender (fun nd v _ => g nd v))])],
         makeSimpleNodeFactory (some trigger.localName) none⟩
    ∧ (makeArraySerializerRun (makeChildAppender (fun nd v _ => g nd v)) none
        trigger (Val.arr values) [mkFrame p]).2
      = .ok [mkFrame { p with children := (p.children
          ++ values.map (fun v =>
              g (createElementNS trigger.namespaceURI trigger.localName) v)) }]
    ∧ (p.children
        ++ values.map (fun v =>
            g (createElementNS trigger.namespaceURI trigger.localName) v)).length
      = p.children.length + values.length
    ∧ ∀ c ∈ values.map (fun v =>
        g (createElementNS trigger.namespaceURI trigger.localName) v),
        c.namespaceURI = trigger.namespaceURI
        ∧ c.localName = trigger.localName := by
  refine ⟨rfl, ?_, by simp, ?_⟩
  · have h := arraySerializer_loop g trigger.namespaceURI trigger.localName
      values p hns hds
    simpa [makeArraySerializerRun, Val.asArr] using h
  · intro c hc
    simp only [List.mem_map] at hc
    obtain ⟨v, hv, rfl⟩ := hc
    exact ⟨(hname _ v).1, (hname _ v).2⟩

/-- Witness for C8: two number values through an attribute-writing child
appender produce exactly two `item` siblings under `root`. -/
theorem makeArraySerializer_siblings_witness :
    (makeArraySerializerRun
        (makeChildAppender (fun nd v _ => nd.setAttribute "v" (valToStr v)))
        none ⟨"urn:a", "item", [], []⟩ (Val.arr [Val.num 1, Val.num 2])
        [mkFrame (createElementNS "urn:a" "root")]).2
      = .ok [mkFrame { createElementNS "urn:a" "root" with
          children := ((createElementNS "urn:a" "root").children
            ++ [Val.num 1, Val.num 2].map (fun v =>
              (fun nd v => nd.setAttribute "v" (valToStr v))
                (createElementNS "urn:a" "item") v)) }] :=
  (makeArraySerializer_siblings (fun nd v => nd.setAttribute "v" (valToStr v))
    ⟨"urn:a", "item", [], []⟩ (createElementNS "urn:a" "root")
    [Val.num 1, Val.num 2] rfl (by decide)
    (fun nd v => ⟨rfl, rfl⟩)).2.1

/-- C10: a `makeArraySerializer` closure builds its one-entry table and
node factory once, from the FIRST trigger node's local name and namespace
URI; a later invocation carrying that cached state — even with a trigger of
a different `(namespaceURI, localName)` — reuses it unchanged, so the
output is still serialized under the first call's name and namespace (the
concrete final conjunct: trigger `(urn:b, second)` after a first call
triggered by `(urn:a, first)` still appends an `(urn:a, first)` child). -/
theorem makeArraySerializer_cache_reuse (w : Serializer) (n1 n2 : XNode)
    (v1 v2 : Val) (s1 s2 : List Val) :
    (makeArraySerializerRun w none n1 v1 s1).1.serializersNS
      = [(n1.namespaceURI, [(n1.localName, w)])]
    ∧ (makeArraySerializerRun w none n1 v1 s1).1.nodeFactory
      = makeSimpleNodeFactory (some n1.localName) none
    ∧ makeArraySerializerRun w (some (makeArraySerializerRun w none n1 v1 s1).1)
        n2 v2 s2
      = ((makeArraySerializerRun w none n1 v1 s1).1,
         serialize [(n1.namespaceURI, [(n1.localName, w)])]
           (makeSimpleNodeFactory (some n1.localName) none) v2.asArr s2 none)
    ∧ (makeArraySerializerRun
        (makeChildAppender (fun nd v _ => nd.setAttribute "v" (valToStr v)))
        (some (makeArraySerializerRun
          (makeChildAppender (fun nd v _ => nd.setAttribute "v" (valToStr v)))
          none ⟨"urn:a", "first", [], []⟩ (Val.arr []) []).1)
        ⟨"urn:b", "second", [], []⟩ (Val.arr [Val.num 9])
        [mkFrame (createElementNS "urn:a" "root")]).2
      = .ok [mkFrame ((createElementNS "urn:a" "root").appendChild
          ((createElementNS "urn:a" "first").setAttribute "v" "9"))] :=
  ⟨rfl, rfl, rfl, rfl⟩

/-- An encoded element is an object, hence never skipped as undefined. -/
theorem encodeNode_isUndef (n : XNode) : (encodeNode n).isUndef = false := by
  obtain ⟨ns, ln, a, cs⟩ := n
  rfl

/-- The generic node factory rebuilds the recorded element name. -/
theorem rtNodeFactory_encode (n : XNode) (st : List Val)
    (key : Option String) :
    rtNodeFactory (encodeNode n) st key
      = some (createElementNS n.namespaceURI n.localName) := by
  obtain ⟨ns, ln, a, cs⟩ := n
  rfl

/-- The recorded children of an encoded element. -/
theorem encodeNode_kids (n : XNode) :
    (encodeNode n).getProp "kids" = Val.arr (encodeKids n.children) := by
  obtain ⟨ns, ln, a, cs⟩ := n
  rfl

/-- Projection form of `XNode.allRec`. -/
theorem XNode.allRec_eq (voc : List (String × List String)) (n : XNode) :
    XNode.allRec voc n
      = (recognized voc n.namespaceURI n.localName
          && XNode.allRecL voc n.children) := by
  obtain ⟨ns, ln, a, cs⟩ := n
  rfl

/-- Projection form of `XNode.height`. -/
theorem XNode.height_eq (n : XNode) :
    n.height = 1 + XNode.heightL n.children := by
  obtain ⟨ns, ln, a, cs⟩ := n
  rfl

/-- Projection form of `XNode.scrub`. -/
theorem XNode.scrub_eq (n : XNode) :
    n.scrub = ⟨n.namespaceURI, n.localName, [], XNode.scrubL n.children⟩ := by
  obtain ⟨ns, ln, a, cs⟩ := n
  rfl

/-- Read direction of the round trip: with enough fuel, the generic reading
client — `pushParseAndPop` at every level with array-pusher parsers —
computes exactly the structural encoding of the element, provided every
descendant pair is recognized. -/
theorem rtRead_eq_encode (voc : List (String × List String)) :
    ∀ (fuel : Nat) (n : XNode),
      XNode.allRecL voc n.children = true →
      n.height ≤ fuel →
      rtRead voc fuel n = encodeNode n := by
  intro fuel
  induction fuel with
  | zero =>
    intro n _ hh
    have := XNode.height_pos n
    omega
  | succ f ih =>
    intro n hrec hh
    obtain ⟨ns, ln, attrs, cs⟩ := n
    rw [XNode.height_eq] at hh
    have hcs : XNode.heightL cs ≤ f := by
      simpa using Nat.le_of_succ_le_succ (by simpa [Nat.add_comm] using hh)
    have key : ∀ (cs' : List XNode), XNode.allRecL voc cs' = true →
        XNode.heightL cs' ≤ f →
        ∀ (acc : List Val),
          List.foldl
            (parseChild (tableOf voc (makeArrayPusher (fun c0 _ => rtRead voc f c0))))
            [Val.arr acc] cs'
            = [Val.arr (acc ++ encodeKids cs')] := by
      intro cs'
      induction cs' with
      | nil => intro _ _ acc; simp [encodeKids]
      | cons c cs2 ihc =>
        intro hrec2 hh2 acc
        simp only [XNode.allRecL, Bool.and_eq_true] at hrec2
        obtain ⟨hc, hcs2⟩ := hrec2
        simp only [XNode.heightL] at hh2
        have hhc : c.height ≤ f := le_trans (le_max_left _ _) hh2
        have hhcs2 : XNode.heightL cs2 ≤ f := le_trans (le_max_right _ _) hh2
        rw [XNode.allRec_eq, Bool.and_eq_true] at hc
        have hread : rtRead voc f c = encodeNode c := ih c hc.2 hhc
        have hpush :
            parseChild (tableOf voc (makeArrayPusher (fun c0 _ => rtRead voc f c0)))
              [Val.arr acc] c
            = [Val.arr (acc ++ [encodeNode c])] := by
          simp [parseChild, lookup2_tableOf, hc.1, makeArrayPusher, hread,
            encodeNode_isUndef, Val.pushElem]
        rw [List.foldl_cons, hpush, ihc hcs2 hhcs2 (acc ++ [encodeNode c])]
        simp [encodeKids]
    have hfold := key cs hrec hcs []
    simp only [rtRead, pushParseAndPop, parseNode]
    rw [hfold]
    simp [encodeNode]

/-- Namespace of a freshly created element. -/
theorem createElementNS_ns (ns ln : String) :
    (createElementNS ns ln).namespaceURI = ns := rfl

/-- Local name of a freshly created element. -/
theorem createElementNS_ln (ns ln : String) :
    (createElementNS ns ln).localName = ln := rfl

/-- Write direction of the round trip: with enough fuel, serializing the
encoded children of a recognized forest through the generic writing client
appends exactly the attribute-stripped forest to the context frame's
parent node. -/
theorem rtSerialize_scrubs (voc : List (String × List String)) :
    ∀ (fuel : Nat) (ks : List XNode),
      XNode.allRecL voc ks = true →
      XNode.heightL ks ≤ fuel →
      ∀ (p : XNode) (rest : List Val),
        serialize (tableOf voc (rtSerializer voc fuel)) rtNodeFactory
          (encodeKids ks) (mkFrame p :: rest) none
        = .ok (mkFrame { p with
            children := (p.children ++ XNode.scrubL ks) } :: rest) := by
  intro fuel
  induction fuel with
  | zero =>
    intro ks hrec hh p rest
    cases ks with
    | nil =>
      obtain ⟨ns0, ln0, a0, cs0⟩ := p
      simp only [encodeKids]
      rw [serialize_nil]
      simp [XNode.scrubL]
    | cons k ks2 =>
      exfalso
      simp only [XNode.heightL] at hh
      have := XNode.height_pos k
      omega
  | succ f ihf =>
    intro ks
    induction ks with
    | nil =>
      intro _ _ p rest
      obtain ⟨ns0, ln0, a0, cs0⟩ := p
      simp only [encodeKids]
      rw [serialize_nil]
      simp [XNode.scrubL]
    | cons k ks2 ihk =>
      intro hrec hh p rest
      simp only [XNode.allRecL, Bool.and_eq_true] at hrec
      obtain ⟨hk, hks2⟩ := hrec
      simp only [XNode.heightL] at hh
      have hhk : k.height ≤ f + 1 := le_trans (le_max_left _ _) hh
      have hhks2 : XNode.heightL ks2 ≤ f + 1 := le_trans (le_max_right _ _) hh
      rw [XNode.allRec_eq, Bool.and_eq_true] at hk
      have hhkc : XNode.heightL k.children ≤ f := by
        rw [XNode.height_eq] at hhk
        omega
      have hinner := ihf k.children hk.2 hhkc
          (createElementNS k.namespaceURI k.localName) []
      have happ : rtSerializer voc (f + 1)
          (createElementNS k.namespaceURI k.localName) (encodeNode k)
          (mkFrame p :: rest)
          = .ok (mkFrame (p.appendChild k.scrub) :: rest) := by
        rw [rtSerializer]
        simp only [makeChildAppender]
        rw [encodeNode_kids]
        simp only [Val.asArr, pushSerializeAndPop, hinner]
        simp [mkFrame, Val.getProp, Val.getField, Val.setProp, setField,
          createElementNS, XNode.scrub_eq, XNode.appendChild]
      have hser : lookup2 (tableOf voc (rtSerializer voc (f + 1)))
          k.namespaceURI k.localName = some (rtSerializer voc (f + 1)) := by
        rw [lookup2_tableOf, if_pos hk.1]
      have hstep : serializeStep (tableOf voc (rtSerializer voc (f + 1)))
          rtNodeFactory (encodeNode k :: encodeKids ks2) none
          (mkFrame p :: rest) 0
          = .ok (mkFrame (p.appendChild k.scrub) :: rest) := by
        simp only [serializeStep, keyAt, List.getD_cons_zero,
          encodeNode_isUndef, Bool.false_eq_true, if_false,
          rtNodeFactory_encode, createElementNS_ns, createElementNS_ln]
        rw [hser]
        exact happ
      simp only [encodeKids]
      rw [serialize_cons, hstep]
      dsimp only
      rw [ihk hks2 hhks2 (p.appendChild k.scrub) rest]
      simp [XNode.appendChild, XNode.scrubL]

/-- C4: round trip through the engine.  A document all of whose elements
carry recognized pairs, parsed by the generic reading client
(`pushParseAndPop` with array-pusher parsers at every level) and written
back by the generic writing client (`pushSerializeAndPop` re-entered at
every level through child appenders and matching node factory and
serializer table) into a childless parent, yields an output tree whose
children have exactly the input's child shapes: the same
`(namespaceURI, localName)` pairs — hence the same multiset of pairs — in
the same nesting structure.  Attributes (and in the DOM, whitespace) are
not preserved and byte identity is not claimed. -/
theorem engine_roundtrip_shape (voc : List (String × List String))
    (root parent : XNode) (fr fw : Nat)
    (hrec : XNode.allRecL voc root.children = true)
    (hfr : root.height ≤ fr)
    (hfw : XNode.heightL root.children ≤ fw)
    (hparent : parent.children = []) :
    ∃ result : XNode,
      pushSerializeAndPop (mkFrame parent) (rtSerTable voc fw) rtNodeFactory
          ((rtRead voc fr root).getProp "kids").asArr [] none
        = .ok (mkFrame result, [])
      ∧ XNode.shapeL result.children = XNode.shapeL root.children
      ∧ Shape.pairsL (XNode.shapeL result.children)
        = Shape.pairsL (XNode.shapeL root.children) := by
  have hv : rtRead voc fr root = encodeNode root :=
    rtRead_eq_encode voc fr root hrec hfr
  have hser := rtSerialize_scrubs voc fw root.children hrec hfw parent []
  have h2 : XNode.shapeL
      (({ parent with
          children := (parent.children ++ XNode.scrubL root.children) } :
        XNode).children)
      = XNode.shapeL root.children := by
    simp [hparent, shape_scrubL]
  refine ⟨{ parent with
      children := (parent.children ++ XNode.scrubL root.children) },
    ?_, h2, by rw [h2]⟩
  rw [hv, encodeNode_kids]
  simp only [Val.asArr, pushSerializeAndPop, rtSerTable]
  rw [hser]
  rfl

/-- The concrete input document of the round-trip witness. -/
def rtDemoRoot : XNode :=
  ⟨"urn:v", "root", [],
    [⟨"urn:v", "a", [("x", "y")], [⟨"urn:v", "b", [], []⟩]⟩,
     ⟨"urn:v", "b", [], []⟩]⟩

/-- Witness for C4: a concrete two-level document over the vocabulary
`urn:v/{a,b}` round-trips to the same child shapes. -/
theorem engine_roundtrip_shape_witness :
    ∃ result : XNode,
      pushSerializeAndPop (mkFrame (createElementNS "urn:v" "out"))
          (rtSerTable [("urn:v", ["a", "b"])] 2) rtNodeFactory
          ((rtRead [("urn:v", ["a", "b"])] 3 rtDemoRoot).getProp "kids").asArr
          [] none
        = .ok (mkFrame result, [])
      ∧ XNode.shapeL result.children = XNode.shapeL rtDemoRoot.children
      ∧ Shape.pairsL (XNode.shapeL result.children)
        = Shape.pairsL (XNode.shapeL rtDemoRoot.children) :=
  engine_roundtrip_shape [("urn:v", ["a", "b"])] rtDemoRoot
    (createElementNS "urn:v" "out") 3 2 (by decide) (by decide) (by decide)
    rfl
